import Mathlib

/-!
Shallow embedding of the Lykechat real-time chat subsystem:
the REST chat route handlers (start, getMessages, sendMessage,
deleteMessage, forwardMessage) and the socket handler
(connection, disconnect, joinChat, typing, messageDelivered,
messageSeen).  Mongo documents are modelled as Lean structures,
the collection as a list, and each Express handler as a pure
function from a store and the request arguments to the updated
store and an HTTP-level result.
-/

namespace Lykechat

/-- Media subdocument of a chat message: url and original filename. -/
structure Media where
  url : String
  filename : String
deriving DecidableEq, Repr

/-- Message status enumeration from the chat schema. -/
inductive MsgStatus where
  | sent
  | delivered
  | seen
deriving DecidableEq, Repr

/-- One chat message.  The fields are the ones the route handlers touch.
Modelled from the spec: the Chat mongoose schema file itself is not in the
sources, so the schema defaults (status sent, isPinned and isDeleted false,
deletedFor empty, forwardedFrom absent) follow the data model section of the
spec; `mid` stands for the subdocument ObjectId. -/
structure Message where
  mid : Nat
  senderId : String
  text : String
  messageType : String
  media : Option Media := none
  status : MsgStatus := .sent
  isPinned : Bool := false
  isDeleted : Bool := false
  deletedFor : List String := []
  forwardedFrom : Option String := none
  deletedAt : Option Nat := none
deriving DecidableEq, Repr

/-- Denormalized last-message summary stored on the chat. -/
structure LastMessage where
  text : String
  senderId : String
  timestamp : Nat
deriving DecidableEq, Repr

/-- Per-participant unread counter entry. -/
structure UnreadEntry where
  userId : String
  count : Nat
deriving DecidableEq, Repr

/-- A chat document: two participants, ordered message log, summary,
per-participant unread counters. -/
structure Chat where
  cid : String
  participants : List String
  messages : List Message
  lastMessage : Option LastMessage := none
  unreadCount : List UnreadEntry
deriving DecidableEq, Repr

/-- The chat collection plus fresh-id counters for new subdocuments and
new chat documents. -/
structure Store where
  chats : List Chat
  nextMid : Nat := 0
  nextCid : Nat := 0
deriving DecidableEq, Repr

/-- Store with no chats. -/
def emptyStore : Store := ⟨[], 0, 0⟩

/-- Chat.findById on the collection. -/
def findById (st : Store) (chatId : String) : Option Chat :=
  st.chats.find? (fun c => c.cid == chatId)

/-- Write back a (mutated) chat document into the collection in place. -/
def updateChat (st : Store) (c : Chat) : Store :=
  { st with chats := st.chats.map (fun x => if x.cid == c.cid then c else x) }

/-- Per-user unread count as the thread-list route reads it:
find the entry of the user and default to 0. -/
def unreadOf (c : Chat) (u : String) : Nat :=
  ((c.unreadCount.find? (fun uc => uc.userId == u)).map UnreadEntry.count).getD 0

/-- Result of the start-chat route: HTTP code and the id of the returned
chat when successful. -/
structure StartRes where
  code : Nat
  chatId : Option String
deriving DecidableEq, Repr

/-- Fresh chat document id. -/
def newChatId (st : Store) : String := "c" ++ toString st.nextCid

/-- POST /api/chat/start.  Validates recipientId nonempty, rejects
self-chat with 400, finds an existing chat containing both participants
(order-independent) or creates a fresh one with zeroed unread counters. -/
def startChat (st : Store) (senderId recipientId : String) : Store × StartRes :=
  if recipientId = "" then (st, ⟨400, none⟩)
  else if recipientId = senderId then (st, ⟨400, none⟩)
  else
    match st.chats.find? (fun c =>
        decide (senderId ∈ c.participants) && decide (recipientId ∈ c.participants)) with
    | some chat => (st, ⟨200, some chat.cid⟩)
    | none =>
      let c : Chat :=
        { cid := newChatId st, participants := [senderId, recipientId],
          messages := [], lastMessage := none,
          unreadCount := [⟨senderId, 0⟩, ⟨recipientId, 0⟩] }
      ({ st with chats := st.chats ++ [c], nextCid := st.nextCid + 1 },
       ⟨200, some c.cid⟩)

/-- JavaScript Array.prototype.slice index resolution: negative indices
count from the end, clamped to the [0, len] range. -/
def jsSliceBound (len : Nat) (i : Int) : Nat :=
  if i < 0 then (i + len).toNat else min i.toNat len

/-- JavaScript Array.prototype.slice. -/
def jsSlice {α : Type} (l : List α) (start stop : Int) : List α :=
  let s := jsSliceBound l.length start
  let e := jsSliceBound l.length stop
  (l.drop s).take (e - s)

/-- Result of the get-messages route. -/
structure GetMessagesRes where
  code : Nat
  messages : List Message
  hasMore : Bool
deriving DecidableEq, Repr

/-- GET /api/chat/:chatId/messages.  404 when the chat is absent, 403 when
the requester is not a participant; otherwise slices the raw message log
with startIndex = max 0 (total - page*limit) and
endIndex = total - (page-1)*limit, reverses the slice, zeroes the
requester's unread counter, and reports hasMore = startIndex > 0. -/
def getMessages (st : Store) (chatId requesterId : String) (page limit : Int) :
    Store × GetMessagesRes :=
  match findById st chatId with
  | none => (st, ⟨404, [], false⟩)
  | some chat =>
    if requesterId ∈ chat.participants then
      let total : Int := chat.messages.length
      let startIndex : Int := max 0 (total - page * limit)
      let endIndex : Int := total - (page - 1) * limit
      let msgs := (jsSlice chat.messages startIndex endIndex).reverse
      let chat' := { chat with
        unreadCount := chat.unreadCount.map (fun uc =>
          if uc.userId == requesterId then { uc with count := 0 } else uc) }
      (updateChat st chat', ⟨200, msgs, decide (0 < startIndex)⟩)
    else (st, ⟨403, [], false⟩)

/-- Uploaded file as multer presents it to the handler. -/
structure FileUpload where
  filename : String
  originalname : String
  mimetype : String
deriving DecidableEq, Repr

/-- Result of the send-message route: HTTP code and the appended message. -/
structure SendRes where
  code : Nat
  sent : Option Message
deriving DecidableEq, Repr

/-- JavaScript falsiness of an optional string: absent or empty. -/
def strFalsy : Option String → Bool
  | none => true
  | some s => s == ""

/-- Mimetype to messageType mapping used when a file is attached. -/
def mediaType (mt : String) : String :=
  if mt.startsWith "image/" then "image"
  else if mt.startsWith "video/" then "video"
  else "document"

/-- POST /api/chat/:chatId/message.  400 when neither text nor file,
404 when the chat is absent, 403 when the sender is not a participant;
otherwise appends the message, refreshes lastMessage and increments the
unread counter of every participant other than the sender.  The express
validator limiting text to 1000 characters is attached in the source but
its result is never read, so no length check appears here. -/
def sendMessage (st : Store) (chatId userId : String) (text : Option String)
    (file : Option FileUpload) (msgTypeBody : Option String) (now : Nat) :
    Store × SendRes :=
  let messageType := msgTypeBody.getD "text"
  if strFalsy text && file.isNone then (st, ⟨400, none⟩)
  else
    match findById st chatId with
    | none => (st, ⟨404, none⟩)
    | some chat =>
      if userId ∈ chat.participants then
        let msg0 : Message :=
          { mid := st.nextMid, senderId := userId, text := text.getD "",
            messageType := messageType, status := .sent }
        let msg : Message :=
          match file with
          | none => msg0
          | some f =>
            { msg0 with
              media := some ⟨"/uploads/chat/" ++ f.filename, f.originalname⟩,
              messageType := mediaType f.mimetype }
        let lmText :=
          match text with
          | some s => if s = "" then "Sent a " ++ messageType else s
          | none => "Sent a " ++ messageType
        let chat' := { chat with
          messages := chat.messages ++ [msg],
          lastMessage := some ⟨lmText, userId, now⟩,
          unreadCount := chat.unreadCount.map (fun uc =>
            if uc.userId != userId then { uc with count := uc.count + 1 } else uc) }
        ({ updateChat st chat' with nextMid := st.nextMid + 1 }, ⟨200, some msg⟩)
      else (st, ⟨403, none⟩)

/-- Result carrying only an HTTP code. -/
structure SimpleRes where
  code : Nat
deriving DecidableEq, Repr

/-- DELETE /api/chat/:chatId/message/:messageId.  404 when chat or message
is absent; 403 whenever the requester is not the sender of the message,
regardless of scope; scope everyone sets isDeleted and the tombstone text,
any other scope adds the requester to deletedFor once. -/
def deleteMessage (st : Store) (chatId : String) (messageId : Nat)
    (userId deleteFor : String) (now : Nat) : Store × SimpleRes :=
  match findById st chatId with
  | none => (st, ⟨404⟩)
  | some chat =>
    match chat.messages.find? (fun m => m.mid == messageId) with
    | none => (st, ⟨404⟩)
    | some msg =>
      if msg.senderId ≠ userId then (st, ⟨403⟩)
      else
        let msg' :=
          if deleteFor = "everyone" then
            { msg with
              isDeleted := true, text := "This message was deleted",
              deletedAt := some now }
          else if userId ∈ msg.deletedFor then msg
          else { msg with deletedFor := msg.deletedFor ++ [userId] }
        let chat' := { chat with
          messages := chat.messages.map (fun m => if m.mid == messageId then msg' else m) }
        (updateChat st chat', ⟨200⟩)

/-- One iteration of the forward loop: look the target chat up in the
current store, append a copy when the forwarder is a participant, and
skip silently otherwise. -/
def forwardStep (userId srcCid : String) (msg : Message) (now : Nat)
    (st : Store) (targetChatId : String) : Store :=
  match findById st targetChatId with
  | none => st
  | some targetChat =>
    if userId ∈ targetChat.participants then
      let fwd : Message :=
        { mid := st.nextMid, senderId := userId, text := msg.text,
          messageType := msg.messageType, media := msg.media,
          forwardedFrom := some srcCid, status := .sent }
      let tc' := { targetChat with
        messages := targetChat.messages ++ [fwd],
        lastMessage := some ⟨"Forwarded: " ++ msg.text, userId, now⟩ }
      { updateChat st tc' with nextMid := st.nextMid + 1 }
    else st

/-- POST /api/chat/:chatId/message/:messageId/forward.  404 when the source
chat or message is absent; then folds forwardStep over the target ids and
always answers 200. -/
def forwardMessage (st : Store) (chatId : String) (messageId : Nat)
    (userId : String) (targetChatIds : List String) (now : Nat) :
    Store × SimpleRes :=
  match findById st chatId with
  | none => (st, ⟨404⟩)
  | some sourceChat =>
    match sourceChat.messages.find? (fun m => m.mid == messageId) with
    | none => (st, ⟨404⟩)
    | some msg =>
      (targetChatIds.foldl (forwardStep userId sourceChat.cid msg now) st, ⟨200⟩)

/-- A connected socket: socket id, authenticated user, username, and the
set of rooms it has joined. -/
structure SocketConn where
  sid : String
  userId : String
  username : String
  rooms : List String
deriving DecidableEq, Repr

/-- Presence columns of a User document. -/
structure PresenceRec where
  userId : String
  isOnline : Bool
  lastSeen : Nat
deriving DecidableEq, Repr

/-- State of the socket layer: connected sockets and the presence columns
of the User collection. -/
structure RtState where
  sockets : List SocketConn
  users : List PresenceRec
deriving DecidableEq, Repr

/-- Payload of a server-to-client emission, one constructor per event the
socket handler emits. -/
inductive Payload where
  | statusUpdate (messageId : String) (status : MsgStatus)
  | userTyping (userId username : String) (isTyping : Bool)
  | userOnline (userId username : String)
  | userOffline (userId username : String) (lastSeen : Nat)
deriving DecidableEq, Repr

/-- One emission: destination socket and payload. -/
structure Emit where
  targetSid : String
  payload : Payload
deriving DecidableEq, Repr

/-- User.findByIdAndUpdate limited to the presence columns. -/
def setPresence (users : List PresenceRec) (u : String) (online : Bool)
    (now : Nat) : List PresenceRec :=
  users.map (fun r => if r.userId == u then
    { r with isOnline := online, lastSeen := now } else r)

/-- socket.broadcast.emit: every connected socket except the emitter. -/
def broadcastExcept (st : RtState) (sid : String) (p : Payload) : List Emit :=
  (st.sockets.filter (fun s => decide (s.sid ≠ sid))).map (fun s => ⟨s.sid, p⟩)

/-- socket.to(room).emit: every socket in the room except the emitter. -/
def emitToRoom (st : RtState) (senderSid room : String) (p : Payload) :
    List Emit :=
  (st.sockets.filter (fun s => decide (room ∈ s.rooms) && decide (s.sid ≠ senderSid))).map
    (fun s => ⟨s.sid, p⟩)

/-- Connection handler: the authenticated socket joins its own room and the
room named by its user id, the user is marked online with lastSeen now, and
userOnline is broadcast to every other socket. -/
def onConnection (st : RtState) (sid userId username : String) (now : Nat) :
    RtState × List Emit :=
  let st' : RtState :=
    ⟨st.sockets ++ [⟨sid, userId, username, [sid, userId]⟩],
     setPresence st.users userId true now⟩
  (st', broadcastExcept st' sid (.userOnline userId username))

/-- Disconnect handler: the socket is removed, its user is marked offline
with lastSeen now — unconditionally, with no check for other connections of
the same user — and userOffline is broadcast. -/
def onDisconnect (st : RtState) (sid : String) (now : Nat) :
    RtState × List Emit :=
  match st.sockets.find? (fun s => s.sid == sid) with
  | none => (st, [])
  | some s =>
    let st' : RtState :=
      ⟨st.sockets.filter (fun x => decide (x.sid ≠ sid)),
       setPresence st.users s.userId false now⟩
    (st', broadcastExcept st' sid (.userOffline s.userId s.username now))

/-- joinChat handler: the socket joins room chat_<chatId>.  No chat store is
consulted — the function does not even take one — so there is no check that
the user is a participant of the chat. -/
def onJoinChat (st : RtState) (sid chatId : String) : RtState :=
  ⟨st.sockets.map (fun s => if s.sid == sid then
      { s with rooms := if ("chat_" ++ chatId) ∈ s.rooms then s.rooms
               else s.rooms ++ ["chat_" ++ chatId] } else s),
   st.users⟩

/-- typing handler: relays a userTyping event to the chat room. -/
def onTyping (st : RtState) (sid chatId : String) (isTyping : Bool) :
    RtState × List Emit :=
  match st.sockets.find? (fun s => s.sid == sid) with
  | none => (st, [])
  | some s =>
    (st, emitToRoom st sid ("chat_" ++ chatId) (.userTyping s.userId s.username isTyping))

/-- messageDelivered handler: relays a delivered status update to the chat
room, reading and writing no stored message. -/
def onMessageDelivered (st : RtState) (sid messageId chatId : String) :
    RtState × List Emit :=
  (st, emitToRoom st sid ("chat_" ++ chatId) (.statusUpdate messageId .delivered))

/-- messageSeen handler: relays a seen status update to the chat room,
reading and writing no stored message. -/
def onMessageSeen (st : RtState) (sid messageId chatId : String) :
    RtState × List Emit :=
  (st, emitToRoom st sid ("chat_" ++ chatId) (.statusUpdate messageId .seen))

/-- A REST call on one chat: a message send or a paginated fetch. -/
inductive ChatCall where
  | send (sender text : String) (now : Nat)
  | fetch (requester : String) (page limit : Int)
deriving DecidableEq, Repr

/-- State change of one call on the store, ignoring the response body. -/
def applyCall (cid : String) (st : Store) : ChatCall → Store
  | .send s t now => (sendMessage st cid s (some t) none none now).1
  | .fetch r page limit => (getMessages st cid r page limit).1

/-- Run a sequence of calls against the store. -/
def runCalls (cid : String) (st : Store) (calls : List ChatCall) : Store :=
  calls.foldl (applyCall cid) st

/-- A call is valid when its actor is one of the two participants and a
send carries nonempty text. -/
def callValid (A B : String) : ChatCall → Prop
  | .send s t _ => (s = A ∨ s = B) ∧ t ≠ ""
  | .fetch r _ _ => r = A ∨ r = B

/-- Modelled from the spec: the messages appended since the last fetch of
participant P — sends accumulate, a fetch by P clears the list, a fetch by
anyone else leaves it. -/
def appendsSinceLastFetch (P : String) (calls : List ChatCall) : List ChatCall :=
  calls.foldl (fun acc c => match c with
    | .send _ _ _ => acc ++ [c]
    | .fetch r _ _ => if r = P then [] else acc) []

/-- Whether a call is a send by someone other than P. -/
def sendByOther (P : String) : ChatCall → Bool
  | .send s _ _ => s != P
  | .fetch _ _ _ => false

/-- Modelled from the spec: the unread count the claim predicts for P —
the number of messages appended by the other participant since the last
fetch by P. -/
def unreadSpec (P : String) (calls : List ChatCall) : Nat :=
  (appendsSinceLastFetch P calls).countP (sendByOther P)

/-- One step of the per-participant counter as the handlers maintain it:
a send by someone else increments, an own fetch resets to 0. -/
def counterStep (P : String) (k : Nat) : ChatCall → Nat
  | .send s _ _ => if P ≠ s then k + 1 else k
  | .fetch r _ _ => if P = r then 0 else k

/-- Fold of counterStep over a call sequence. -/
def counterRun (P : String) (k : Nat) (calls : List ChatCall) : Nat :=
  calls.foldl (counterStep P) k

/-- Unread counter of user u on chat cid in the store, 0 when absent. -/
def chatUnread (st : Store) (cid u : String) : Nat :=
  match findById st cid with
  | some c => unreadOf c u
  | none => 0

/-- Presence columns of user u as stored in the User collection. -/
def presenceOf (st : RtState) (u : String) : Option PresenceRec :=
  st.users.find? (fun r => r.userId == u)

/-- Whether u is a participant of the chat with id chatId in the store. -/
def isParticipant (st : Store) (chatId u : String) : Prop :=
  ∃ c ∈ st.chats, c.cid = chatId ∧ u ∈ c.participants

instance (st : Store) (chatId u : String) : Decidable (isParticipant st chatId u) :=
  decidable_of_iff (∃ c ∈ st.chats, c.cid = chatId ∧ u ∈ c.participants) Iff.rfl

/-- Fixture: a fresh chat between users A and B. -/
def chatAB : Chat := ⟨"c0", ["A", "B"], [], none, [⟨"A", 0⟩, ⟨"B", 0⟩]⟩

/-- Fixture: a text message from A with subdocument id 0. -/
def msgHi : Message := ⟨0, "A", "hi", "text", none, .sent, false, false, [], none, none⟩

/-- Fixture: a store whose only chat holds one message from A, unread by B. -/
def stDel : Store :=
  ⟨[⟨"c0", ["A", "B"], [msgHi], none, [⟨"A", 0⟩, ⟨"B", 1⟩]⟩], 1, 1⟩

/-- Fixture: three chats — the source chat of A and B holding one message,
a chat of A and C, and a chat of B and C in which A is not a participant. -/
def stFwd : Store :=
  ⟨[⟨"c0", ["A", "B"], [msgHi], none, [⟨"A", 0⟩, ⟨"B", 1⟩]⟩,
    ⟨"c1", ["A", "C"], [], none, [⟨"A", 0⟩, ⟨"C", 0⟩]⟩,
    ⟨"c2", ["B", "C"], [], none, [⟨"B", 0⟩, ⟨"C", 0⟩]⟩], 1, 3⟩

/-- Fixture: a chat with two messages, m1 from A then m2 from B. -/
def chatPag : Chat :=
  ⟨"c0", ["A", "B"],
   [⟨0, "A", "m1", "text", none, .sent, false, false, [], none, none⟩,
    ⟨1, "B", "m2", "text", none, .sent, false, false, [], none, none⟩],
   none, [⟨"A", 0⟩, ⟨"B", 0⟩]⟩

/-- Fixture: a store holding only chatPag. -/
def stPag : Store := ⟨[chatPag], 2, 1⟩

/-- Fixture: stDel with deletion marks set on its only message. -/
def stDelMarks : Store :=
  ⟨[⟨"c0", ["A", "B"],
     [{ msgHi with isDeleted := true, deletedFor := ["B"] }], none,
     [⟨"A", 0⟩, ⟨"B", 1⟩]⟩], 1, 1⟩

/-- Fixture: a store with one chat of A and B, for the observer scenario. -/
def storeObs : Store := ⟨[chatAB], 0, 1⟩

/-- Fixture: socket state with an observer sZ of user Z, not a participant
of chat c0, and a socket sE of participant A already in room chat_c0. -/
def rtObs : RtState :=
  ⟨[⟨"sZ", "Z", "z", ["sZ", "Z"]⟩, ⟨"sE", "A", "a", ["sE", "A", "chat_c0"]⟩], []⟩

/-- A 1001-character message text. -/
def longText : String := String.mk (List.replicate 1001 'a')

/-- find? commutes with a map that preserves the looked-up predicate. -/
theorem find?_map_key {α : Type} (g : α → α) (p : α → Bool)
    (hp : ∀ x, p (g x) = p x) :
    ∀ l : List α, (l.map g).find? p = (l.find? p).map g
  | [] => rfl
  | x :: xs => by
    rw [List.map_cons, List.find?_cons, List.find?_cons, hp x]
    cases hx : p x
    · simpa using find?_map_key g p hp xs
    · rfl

/-- find? agrees on pointwise equal predicates. -/
theorem find?_ext {α : Type} (p q : α → Bool) (hpq : ∀ x, p x = q x) :
    ∀ l : List α, l.find? p = l.find? q
  | [] => rfl
  | x :: xs => by
    rw [List.find?_cons, List.find?_cons, hpq x]
    cases hx : q x
    · simpa using find?_ext p q hpq xs
    · rfl

/-- Members of a list with nodup projections are determined by their
projection. -/
theorem nodup_proj_inj {α β : Type} (f : α → β) :
    ∀ {l : List α}, (l.map f).Nodup →
      ∀ {x y : α}, x ∈ l → y ∈ l → f x = f y → x = y := by
  intro l
  induction l with
  | nil => intro _ x y hx; cases hx
  | cons a as ih =>
    intro hnd x y hx hy hf
    rw [List.map_cons, List.nodup_cons] at hnd
    rcases List.mem_cons.1 hx with rfl | hx' <;>
      rcases List.mem_cons.1 hy with rfl | hy'
    · rfl
    · exact absurd (hf ▸ List.mem_map_of_mem f hy') hnd.1
    · exact absurd (hf ▸ List.mem_map_of_mem f hx') hnd.1
    · exact ih hnd.2 hx' hy' hf

/-- C3 counterexample: two sockets share room chat_c1; after the handler
for a seen event, the handler for a delivered event on the same message
emits a delivered status update to the other room member — a regressing
update is propagated, so the out-of-order delivered event is not a no-op. -/
theorem delivered_after_seen_regresses :
    let st0 : RtState :=
      ⟨[⟨"sA", "uA", "a", ["sA", "uA", "chat_c1"]⟩,
        ⟨"sB", "uB", "b", ["sB", "uB", "chat_c1"]⟩], []⟩
    let r1 := onMessageSeen st0 "sA" "m1" "c1"
    let r2 := onMessageDelivered r1.1 "sA" "m1" "c1"
    r1.2 = [⟨"sB", .statusUpdate "m1" .seen⟩] ∧
    r2.2 = [⟨"sB", .statusUpdate "m1" .delivered⟩] := by decide

/-- C3 amended: the status handlers relay the status of the incoming event
verbatim to every chat-room member other than the emitter and leave all
state unchanged; no stored message status is read or written, so a
delivered event arriving after a seen event still broadcasts a delivered
update. -/
theorem status_events_relayed_verbatim (st : RtState)
    (sid messageId chatId : String) (r : SocketConn) (hr : r ∈ st.sockets)
    (hroom : ("chat_" ++ chatId) ∈ r.rooms) (hne : r.sid ≠ sid) :
    (onMessageDelivered st sid messageId chatId).1 = st ∧
    (onMessageSeen st sid messageId chatId).1 = st ∧
    (⟨r.sid, .statusUpdate messageId .delivered⟩ : Emit) ∈
      (onMessageDelivered st sid messageId chatId).2 ∧
    (⟨r.sid, .statusUpdate messageId .seen⟩ : Emit) ∈
      (onMessageSeen st sid messageId chatId).2 := by
  refine ⟨rfl, rfl, ?_, ?_⟩ <;>
  · simp only [onMessageDelivered, onMessageSeen, emitToRoom, List.mem_map]
    exact ⟨r, List.mem_filter.2 ⟨hr, by simp [hroom, hne]⟩, rfl⟩

/-- Witness for the amended C3 theorem at a concrete two-socket state. -/
theorem status_events_relayed_verbatim_witness :
    (onMessageDelivered
      ⟨[⟨"sA", "uA", "a", ["sA", "uA", "chat_c1"]⟩,
        ⟨"sB", "uB", "b", ["sB", "uB", "chat_c1"]⟩], []⟩ "sA" "m1" "c1").1 =
      ⟨[⟨"sA", "uA", "a", ["sA", "uA", "chat_c1"]⟩,
        ⟨"sB", "uB", "b", ["sB", "uB", "chat_c1"]⟩], []⟩ ∧
    (onMessageSeen
      ⟨[⟨"sA", "uA", "a", ["sA", "uA", "chat_c1"]⟩,
        ⟨"sB", "uB", "b", ["sB", "uB", "chat_c1"]⟩], []⟩ "sA" "m1" "c1").1 =
      ⟨[⟨"sA", "uA", "a", ["sA", "uA", "chat_c1"]⟩,
        ⟨"sB", "uB", "b", ["sB", "uB", "chat_c1"]⟩], []⟩ ∧
    (⟨"sB", .statusUpdate "m1" .delivered⟩ : Emit) ∈
      (onMessageDelivered
        ⟨[⟨"sA", "uA", "a", ["sA", "uA", "chat_c1"]⟩,
          ⟨"sB", "uB", "b", ["sB", "uB", "chat_c1"]⟩], []⟩ "sA" "m1" "c1").2 ∧
    (⟨"sB", .statusUpdate "m1" .seen⟩ : Emit) ∈
      (onMessageSeen
        ⟨[⟨"sA", "uA", "a", ["sA", "uA", "chat_c1"]⟩,
          ⟨"sB", "uB", "b", ["sB", "uB", "chat_c1"]⟩], []⟩ "sA" "m1" "c1").2 := by
  have h := status_events_relayed_verbatim
    ⟨[⟨"sA", "uA", "a", ["sA", "uA", "chat_c1"]⟩,
      ⟨"sB", "uB", "b", ["sB", "uB", "chat_c1"]⟩], []⟩
    "sA" "m1" "c1" ⟨"sB", "uB", "b", ["sB", "uB", "chat_c1"]⟩
    (by decide) (by decide) (by decide)
  exact h

/-- C7 counterexample: user u1 opens two connections s1 and s2; when s1
disconnects, another connection of u1 is still active, yet the user is
marked offline with lastSeen 5 — the claim that isOnline only flips on the
last handle fails. -/
theorem presence_disconnect_counterexample :
    let st1 := (onConnection ⟨[], [⟨"u1", false, 0⟩]⟩ "s1" "u1" "alice" 1).1
    let st2 := (onConnection st1 "s2" "u1" "alice" 2).1
    let st3 := (onDisconnect st2 "s1" 5).1
    (∃ s ∈ st3.sockets, s.userId = "u1") ∧
    presenceOf st3 "u1" = some ⟨"u1", false, 5⟩ := by decide

/-- C7 amended: the handlers do no handle counting — every connection sets
the user online and every disconnect sets the user offline, regardless of
other active connections of the same user, and lastSeen is rewritten to
the time of the event in both cases; a disconnect removes exactly the one
socket. -/
theorem presence_set_on_every_event (st : RtState) (sid : String) (now : Nat)
    (s : SocketConn) (hs : st.sockets.find? (fun x => x.sid == sid) = some s)
    (rec : PresenceRec) (hrec : presenceOf st s.userId = some rec) :
    presenceOf (onDisconnect st sid now).1 s.userId =
      some ⟨s.userId, false, now⟩ ∧
    (onDisconnect st sid now).1.sockets =
      st.sockets.filter (fun x => decide (x.sid ≠ sid)) ∧
    ∀ sid2 name2, presenceOf (onConnection st sid2 s.userId name2 now).1
      s.userId = some ⟨s.userId, true, now⟩ := by
  have hkey : ∀ (online : Bool),
      presenceOf ⟨st.sockets, setPresence st.users s.userId online now⟩ s.userId
        = some ⟨s.userId, online, now⟩ := by
    intro online
    have hp : ∀ r : PresenceRec,
        ((if r.userId == s.userId then
            { r with isOnline := online, lastSeen := now } else r).userId
          == s.userId) = (r.userId == s.userId) := by
      intro r; by_cases h : r.userId == s.userId <;> simp [h]
    have := find?_map_key
      (fun r : PresenceRec => if r.userId == s.userId then
        { r with isOnline := online, lastSeen := now } else r)
      (fun r : PresenceRec => r.userId == s.userId) hp st.users
    have hu : rec.userId = s.userId := by
      have := List.find?_some hrec
      simpa [beq_iff_eq] using this
    simp only [presenceOf, setPresence] at *
    rw [this, hrec]
    simp [hu]
  refine ⟨?_, ?_, ?_⟩
  · simp only [onDisconnect, hs]
    exact hkey false
  · simp only [onDisconnect, hs]
  · intro sid2 name2
    simpa [onConnection, presenceOf] using hkey true

/-- Witness for the amended C7 theorem: two live connections of u1,
disconnecting the first marks u1 offline at time 5. -/
theorem presence_set_on_every_event_witness :
    presenceOf (onDisconnect
      ⟨[⟨"s1", "u1", "alice", ["s1", "u1"]⟩, ⟨"s2", "u1", "alice", ["s2", "u1"]⟩],
       [⟨"u1", true, 2⟩]⟩ "s1" 5).1 "u1" = some ⟨"u1", false, 5⟩ := by
  have h := presence_set_on_every_event
    ⟨[⟨"s1", "u1", "alice", ["s1", "u1"]⟩, ⟨"s2", "u1", "alice", ["s2", "u1"]⟩],
     [⟨"u1", true, 2⟩]⟩ "s1" 5 ⟨"s1", "u1", "alice", ["s1", "u1"]⟩
    (by decide) ⟨"u1", true, 2⟩ (by decide)
  exact h.1

/-- C9: the joinChat handler consults no participant list — even when the
user of the socket is not a participant of the chat in the store, the
socket joins room chat_<chatId>, and every status update relayed to that
room by any other socket is afterwards delivered to it. -/
theorem joinChat_open_to_non_participants (store : Store) (st : RtState)
    (sid chatId : String) (s : SocketConn)
    (hs : st.sockets.find? (fun x => x.sid == sid) = some s)
    (hnp : ¬ isParticipant store chatId s.userId) :
    (∃ s', (onJoinChat st sid chatId).sockets.find?
        (fun x => x.sid == sid) = some s' ∧
      s'.userId = s.userId ∧ ("chat_" ++ chatId) ∈ s'.rooms) ∧
    (∀ esid mId, esid ≠ sid →
      (⟨sid, .statusUpdate mId .delivered⟩ : Emit) ∈
        (onMessageDelivered (onJoinChat st sid chatId) esid mId chatId).2 ∧
      (⟨sid, .statusUpdate mId .seen⟩ : Emit) ∈
        (onMessageSeen (onJoinChat st sid chatId) esid mId chatId).2) ∧
    (∀ esid p, esid ≠ sid →
      (⟨sid, p⟩ : Emit) ∈ emitToRoom (onJoinChat st sid chatId) esid
        ("chat_" ++ chatId) p) := by
  have hsid : s.sid = sid := by
    have := List.find?_some hs
    simpa [beq_iff_eq] using this
  have hp : ∀ x : SocketConn,
      ((if x.sid == sid then
          { x with rooms := if ("chat_" ++ chatId) ∈ x.rooms then x.rooms
                   else x.rooms ++ ["chat_" ++ chatId] } else x).sid == sid)
        = (x.sid == sid) := by
    intro x; by_cases h : x.sid == sid <;> simp [h]
  have hfind : (onJoinChat st sid chatId).sockets.find?
      (fun x => x.sid == sid) = some
      { s with rooms := if ("chat_" ++ chatId) ∈ s.rooms then s.rooms
               else s.rooms ++ ["chat_" ++ chatId] } := by
    simp only [onJoinChat]
    rw [find?_map_key _ _ hp st.sockets, hs]
    simp [hsid]
  have hmemroom : ("chat_" ++ chatId) ∈
      (if ("chat_" ++ chatId) ∈ s.rooms then s.rooms
       else s.rooms ++ ["chat_" ++ chatId]) := by
    by_cases h : ("chat_" ++ chatId) ∈ s.rooms <;> simp [h]
  have hjoined : ∃ s', (onJoinChat st sid chatId).sockets.find?
      (fun x => x.sid == sid) = some s' ∧
      s'.userId = s.userId ∧ ("chat_" ++ chatId) ∈ s'.rooms :=
    ⟨_, hfind, rfl, hmemroom⟩
  have hdeliver : ∀ esid p, esid ≠ sid →
      (⟨sid, p⟩ : Emit) ∈ emitToRoom (onJoinChat st sid chatId) esid
        ("chat_" ++ chatId) p := by
    intro esid p hne
    have hmem : ({ s with rooms := if ("chat_" ++ chatId) ∈ s.rooms then s.rooms
        else s.rooms ++ ["chat_" ++ chatId] } : SocketConn)
        ∈ (onJoinChat st sid chatId).sockets := by
      simp only [onJoinChat]
      have hsmem : s ∈ st.sockets := List.mem_of_find?_eq_some hs
      have : (if s.sid == sid then
          { s with rooms := if ("chat_" ++ chatId) ∈ s.rooms then s.rooms
                   else s.rooms ++ ["chat_" ++ chatId] } else s)
          = { s with rooms := if ("chat_" ++ chatId) ∈ s.rooms then s.rooms
                   else s.rooms ++ ["chat_" ++ chatId] } := by
        simp [hsid]
      exact this ▸ List.mem_map_of_mem _ hsmem
    simp only [emitToRoom, List.mem_map]
    refine ⟨_, List.mem_filter.2 ⟨hmem, ?_⟩, by simp [hsid]⟩
    simp only [Bool.and_eq_true, decide_eq_true_eq]
    exact ⟨hmemroom, by rw [hsid]; exact fun h => hne h.symm⟩
  refine ⟨hjoined, ?_, hdeliver⟩
  intro esid mId hne
  exact ⟨by simpa [onMessageDelivered] using
      hdeliver esid (.statusUpdate mId .delivered) hne,
    by simpa [onMessageSeen] using
      hdeliver esid (.statusUpdate mId .seen) hne⟩

/-- findById after updateChat rewrites the looked-up chat pointwise. -/
theorem findById_updateChat (st : Store) (c' : Chat) (key : String) :
    findById (updateChat st c') key =
      (findById st key).map (fun x => if x.cid == c'.cid then c' else x) := by
  have hp : ∀ x : Chat,
      ((if x.cid == c'.cid then c' else x).cid == key) = (x.cid == key) := by
    intro x
    by_cases h : x.cid == c'.cid
    · have hx : x.cid = c'.cid := by simpa [beq_iff_eq] using h
      simp [h, hx]
    · simp [h]
  unfold findById updateChat
  exact find?_map_key _ _ hp st.chats

/-- Updating a chat found under a key makes the update visible under it. -/
theorem findById_updateChat_self (st : Store) (key : String) (c c' : Chat)
    (hc : findById st key = some c) (hcid : c'.cid = c.cid) :
    findById (updateChat st c') key = some c' := by
  rw [findById_updateChat, hc]
  simp [hcid]

/-- Reduction of getMessages on a found chat and participant requester. -/
theorem getMessages_eq (st : Store) (chatId reqId : String) (page limit : Int)
    (c : Chat) (hc : findById st chatId = some c)
    (hreq : reqId ∈ c.participants) :
    getMessages st chatId reqId page limit =
      (updateChat st { c with unreadCount := c.unreadCount.map (fun uc =>
          if uc.userId == reqId then { uc with count := 0 } else uc) },
       ⟨200,
        (jsSlice c.messages
          (max 0 ((c.messages.length : Int) - page * limit))
          ((c.messages.length : Int) - (page - 1) * limit)).reverse,
        decide (0 < max 0 ((c.messages.length : Int) - page * limit))⟩) := by
  simp [getMessages, hc, hreq]

/-- Witness for the C9 theorem: observer sZ of non-participant user Z joins
chat_c0 and afterwards receives relayed status updates. -/
theorem joinChat_open_to_non_participants_witness :
    (∃ s', (onJoinChat rtObs "sZ" "c0").sockets.find?
        (fun x => x.sid == "sZ") = some s' ∧
      s'.userId = "Z" ∧ ("chat_" ++ "c0") ∈ s'.rooms) ∧
    (∀ esid mId, esid ≠ "sZ" →
      (⟨"sZ", .statusUpdate mId .delivered⟩ : Emit) ∈
        (onMessageDelivered (onJoinChat rtObs "sZ" "c0") esid mId "c0").2 ∧
      (⟨"sZ", .statusUpdate mId .seen⟩ : Emit) ∈
        (onMessageSeen (onJoinChat rtObs "sZ" "c0") esid mId "c0").2) ∧
    (∀ esid p, esid ≠ "sZ" →
      (⟨"sZ", p⟩ : Emit) ∈ emitToRoom (onJoinChat rtObs "sZ" "c0") esid
        ("chat_" ++ "c0") p) := by
  have h := joinChat_open_to_non_participants storeObs rtObs "sZ" "c0"
    ⟨"sZ", "Z", "z", ["sZ", "Z"]⟩ (by decide) (by decide)
  exact h

set_option maxRecDepth 10000 in
/-- C8: a text of 1001 characters — over the documented 1000-character
limit — is accepted by the send handler: the response is 200 and the
message is appended, because the attached express validator result is
never checked. -/
theorem overlong_text_accepted :
    (sendMessage ⟨[chatAB], 0, 1⟩ "c0" "A" (some longText) none none 3).2.code
      = 200 ∧
    (findById (sendMessage ⟨[chatAB], 0, 1⟩ "c0" "A"
        (some longText) none none 3).1 "c0").map
      (fun c => c.messages.map Message.text) = some [longText] ∧
    1000 < longText.length := by
  refine ⟨rfl, rfl, by decide⟩

/-- C4 counterexample: participant B (not the sender) asks to delete the
message of A with scope me; the handler answers 403 and changes nothing,
refuting the claim that delete-for-me succeeds for a non-sender. -/
theorem delete_for_me_by_non_sender_rejected :
    deleteMessage stDel "c0" 0 "B" "me" 9 = (stDel, ⟨403⟩) := by decide

/-- A slice from a clamped nonpositive start to a stop at or past the end
returns the whole list. -/
theorem jsSlice_all {α : Type} (l : List α) (a b : Int) (ha : a ≤ 0)
    (hb : (l.length : Int) ≤ b) : jsSlice l (max 0 a) b = l := by
  rw [max_eq_left ha]
  have h2 : jsSliceBound l.length 0 = 0 := by
    rw [jsSliceBound, if_neg (by omega)]
    simp
  have h3 : jsSliceBound l.length b = l.length := by
    rw [jsSliceBound, if_neg (by omega)]
    have hbn : l.length ≤ b.toNat := by omega
    simp [min_eq_right hbn]
  simp [jsSlice, h2, h3]

/-- C4 (amended): deleteMessage requires the requester to be the sender of
the message for both scopes — a non-sender gets 403 with no state change,
also for scope me; the sender with scope me is added to deletedFor and the
message keeps its text and stays fetchable, and the sender with scope
everyone tombstones the message, which subsequent getMessages returns with
the tombstone text. -/
theorem deleteMessage_sender_only (st : Store) (chatId : String)
    (messageId : Nat) (userId scope : String) (now : Nat) (c : Chat)
    (m : Message) (hc : findById st chatId = some c)
    (hm : c.messages.find? (fun x => x.mid == messageId) = some m) :
    (m.senderId ≠ userId →
      deleteMessage st chatId messageId userId scope now = (st, ⟨403⟩)) ∧
    (m.senderId = userId →
      (deleteMessage st chatId messageId userId scope now).2 = ⟨200⟩ ∧
      ∃ c' m',
        findById (deleteMessage st chatId messageId userId scope now).1 chatId
          = some c' ∧
        c'.participants = c.participants ∧
        c'.messages.find? (fun x => x.mid == messageId) = some m' ∧
        (∀ reqId L, reqId ∈ c'.participants →
          (c'.messages.length : Int) ≤ L →
          m' ∈ (getMessages
            (deleteMessage st chatId messageId userId scope now).1
            chatId reqId 1 L).2.messages) ∧
        (scope = "everyone" →
          m'.isDeleted = true ∧ m'.text = "This message was deleted") ∧
        (scope ≠ "everyone" →
          userId ∈ m'.deletedFor ∧ m'.isDeleted = m.isDeleted ∧
          m'.text = m.text ∧
          m'.deletedFor = (if userId ∈ m.deletedFor then m.deletedFor
            else m.deletedFor ++ [userId]))) := by
  have hmid : m.mid = messageId := by
    simpa [beq_iff_eq] using List.find?_some hm
  constructor
  · intro hne
    simp [deleteMessage, hc, hm, hne]
  · intro heq
    have hif : ¬ (m.senderId ≠ userId) := by simp [heq]
    let mdel : Message :=
      if scope = "everyone" then
        { m with
          isDeleted := true, text := "This message was deleted",
          deletedAt := some now }
      else if userId ∈ m.deletedFor then m
      else { m with deletedFor := m.deletedFor ++ [userId] }
    let cdel : Chat := { c with messages := c.messages.map (fun x =>
      if x.mid == messageId then mdel else x) }
    have hmdel : mdel =
        if scope = "everyone" then
          { m with
            isDeleted := true, text := "This message was deleted",
            deletedAt := some now }
        else if userId ∈ m.deletedFor then m
        else { m with deletedFor := m.deletedFor ++ [userId] } := rfl
    have hmiddel : mdel.mid = messageId := by
      rw [hmdel]
      by_cases h1 : scope = "everyone"
      · simp [h1, hmid]
      · by_cases h2 : userId ∈ m.deletedFor <;> simp [h1, h2, hmid]
    have hcm : cdel.messages = c.messages.map (fun x =>
        if x.mid == messageId then mdel else x) := rfl
    have hred : deleteMessage st chatId messageId userId scope now =
        (updateChat st cdel, ⟨200⟩) := by
      simp only [deleteMessage, hc, hm]
      rw [if_neg hif]
    have hcfound : findById (updateChat st cdel) chatId = some cdel :=
      findById_updateChat_self st chatId c cdel hc rfl
    have hp : ∀ x : Message,
        ((if x.mid == messageId then mdel else x).mid == messageId)
          = (x.mid == messageId) := by
      intro x
      by_cases h : x.mid == messageId
      · simp [h, hmiddel]
      · simp [h]
    have hfound : cdel.messages.find? (fun x => x.mid == messageId)
        = some mdel := by
      rw [hcm, find?_map_key _ _ hp c.messages, hm]
      simp [hmid]
    have hmem : mdel ∈ cdel.messages := by
      have hmmem : m ∈ c.messages := List.mem_of_find?_eq_some hm
      rw [hcm]
      exact List.mem_map.2 ⟨m, hmmem, by simp [hmid]⟩
    have hfetch : ∀ reqId L, reqId ∈ cdel.participants →
        (cdel.messages.length : Int) ≤ L →
        mdel ∈ (getMessages (updateChat st cdel) chatId reqId 1 L).2.messages := by
      intro reqId L hreq hL
      rw [getMessages_eq (updateChat st cdel) chatId reqId 1 L cdel hcfound hreq]
      show mdel ∈ (jsSlice cdel.messages
        (max 0 ((cdel.messages.length : Int) - 1 * L))
        ((cdel.messages.length : Int) - (1 - 1) * L)).reverse
      rw [jsSlice_all cdel.messages ((cdel.messages.length : Int) - 1 * L)
        ((cdel.messages.length : Int) - (1 - 1) * L) (by omega) (by omega)]
      exact List.mem_reverse.2 hmem
    rw [hred]
    refine ⟨rfl, cdel, mdel, hcfound, rfl, hfound, hfetch, ?_, ?_⟩
    · intro hsc
      rw [hmdel]
      simp [hsc]
    · intro hsc
      rw [hmdel]
      by_cases hin : userId ∈ m.deletedFor <;> simp [hsc, hin]

/-- Witness for the amended C4 theorem: sender A deletes the message for
everyone and the handler answers 200. -/
theorem deleteMessage_sender_only_witness :
    (deleteMessage stDel "c0" 0 "A" "everyone" 9).2 = ⟨200⟩ :=
  ((deleteMessage_sender_only stDel "c0" 0 "A" "everyone" 9
    ⟨"c0", ["A", "B"], [msgHi], none, [⟨"A", 0⟩, ⟨"B", 1⟩]⟩ msgHi
    (by rfl) (by rfl)).2 rfl).1

/-- Reduction of startChat when an existing chat is found for the pair. -/
theorem startChat_found (st : Store) (A B : String) (hB : B ≠ "")
    (hBA : B ≠ A) (chat : Chat)
    (hfind : st.chats.find? (fun c =>
      decide (A ∈ c.participants) && decide (B ∈ c.participants)) = some chat) :
    startChat st A B = (st, ⟨200, some chat.cid⟩) := by
  simp [startChat, hB, hBA, hfind]

/-- Reduction of startChat when no chat exists for the pair yet. -/
theorem startChat_new (st : Store) (A B : String) (hB : B ≠ "") (hBA : B ≠ A)
    (hfind : st.chats.find? (fun c =>
      decide (A ∈ c.participants) && decide (B ∈ c.participants)) = none) :
    startChat st A B =
      ({ st with
         chats := st.chats ++
           [⟨newChatId st, [A, B], [], none, [⟨A, 0⟩, ⟨B, 0⟩]⟩],
         nextCid := st.nextCid + 1 },
       ⟨200, some (newChatId st)⟩) := by
  simp [startChat, hB, hBA, hfind]

/-- C5: startChat is idempotent and order-independent — on any store, a
second call with the same pair returns the same chat id and leaves the
store unchanged, a call with the pair swapped returns the same id too, and
a self-chat request is rejected with 400 creating nothing. -/
theorem startChat_idempotent_symmetric (st : Store) (A B : String)
    (hA : A ≠ "") (hB : B ≠ "") (hAB : A ≠ B) :
    (∃ cid, (startChat st A B).2 = ⟨200, some cid⟩ ∧
      startChat (startChat st A B).1 A B
        = ((startChat st A B).1, ⟨200, some cid⟩) ∧
      startChat (startChat st A B).1 B A
        = ((startChat st A B).1, ⟨200, some cid⟩)) ∧
    startChat st A A = (st, ⟨400, none⟩) := by
  have hBA : B ≠ A := fun h => hAB h.symm
  have hswap : ∀ c : Chat,
      (decide (B ∈ c.participants) && decide (A ∈ c.participants))
        = (decide (A ∈ c.participants) && decide (B ∈ c.participants)) := by
    intro c; exact Bool.and_comm _ _
  constructor
  · cases hfind : st.chats.find? (fun c =>
        decide (A ∈ c.participants) && decide (B ∈ c.participants)) with
    | some chat =>
      have e1 := startChat_found st A B hB hBA chat hfind
      have hfind' : st.chats.find? (fun c =>
          decide (B ∈ c.participants) && decide (A ∈ c.participants))
            = some chat := by
        rw [find?_ext _ _ hswap st.chats]; exact hfind
      have e3 := startChat_found st B A hA hAB chat hfind'
      exact ⟨chat.cid, by rw [e1], by rw [e1]; exact e1, by rw [e1]; exact e3⟩
    | none =>
      have e1 := startChat_new st A B hB hBA hfind
      have hq : (decide (A ∈ ([A, B] : List String))
          && decide (B ∈ ([A, B] : List String))) = true := by simp
      have hfind2 : (st.chats ++
          [(⟨newChatId st, [A, B], [], none, [⟨A, 0⟩, ⟨B, 0⟩]⟩ : Chat)]).find?
          (fun c => decide (A ∈ c.participants) && decide (B ∈ c.participants))
            = some ⟨newChatId st, [A, B], [], none, [⟨A, 0⟩, ⟨B, 0⟩]⟩ := by
        rw [List.find?_append, hfind]
        simp
      have hfind3 : (st.chats ++
          [(⟨newChatId st, [A, B], [], none, [⟨A, 0⟩, ⟨B, 0⟩]⟩ : Chat)]).find?
          (fun c => decide (B ∈ c.participants) && decide (A ∈ c.participants))
            = some ⟨newChatId st, [A, B], [], none, [⟨A, 0⟩, ⟨B, 0⟩]⟩ := by
        rw [find?_ext _ _ hswap]; exact hfind2
      refine ⟨newChatId st, by rw [e1], ?_, ?_⟩
      · rw [e1]
        exact startChat_found
          { st with
            chats := st.chats ++
              [⟨newChatId st, [A, B], [], none, [⟨A, 0⟩, ⟨B, 0⟩]⟩],
            nextCid := st.nextCid + 1 } A B hB hBA _ hfind2
      · rw [e1]
        exact startChat_found
          { st with
            chats := st.chats ++
              [⟨newChatId st, [A, B], [], none, [⟨A, 0⟩, ⟨B, 0⟩]⟩],
            nextCid := st.nextCid + 1 } B A hA hAB _ hfind3
  · by_cases hAe : A = "" <;> simp [startChat, hAe]

/-- Witness for the C5 theorem on the empty store. -/
theorem startChat_idempotent_symmetric_witness :
    (∃ cid, (startChat emptyStore "A" "B").2 = ⟨200, some cid⟩ ∧
      startChat (startChat emptyStore "A" "B").1 "A" "B"
        = ((startChat emptyStore "A" "B").1, ⟨200, some cid⟩) ∧
      startChat (startChat emptyStore "A" "B").1 "B" "A"
        = ((startChat emptyStore "A" "B").1, ⟨200, some cid⟩)) ∧
    startChat emptyStore "A" "A" = (emptyStore, ⟨400, none⟩) :=
  startChat_idempotent_symmetric emptyStore "A" "B"
    (by decide) (by decide) (by decide)

/-- jsSlice commutes with map. -/
theorem jsSlice_map {α β : Type} (f : α → β) (l : List α) (a b : Int) :
    jsSlice (l.map f) a b = (jsSlice l a b).map f := by
  simp [jsSlice, List.length_map, List.map_drop, List.map_take]

/-- C10: getMessages never filters on deletion state — changing isDeleted
and deletedFor of every stored message arbitrarily changes neither the
response code, nor hasMore, nor which positions are returned: the returned
page is the pointwise-marked version of the original page, so messages the
requester deleted for themselves and tombstoned messages are returned, not
omitted. -/
theorem getMessages_ignores_deletion_marks (st st' : Store)
    (chatId requesterId : String) (page limit : Int) (c : Chat)
    (g : Message → Bool) (h : Message → List String)
    (hc : findById st chatId = some c)
    (hc' : findById st' chatId = some { c with
      messages := c.messages.map (fun m =>
        { m with isDeleted := g m, deletedFor := h m }) }) :
    (getMessages st' chatId requesterId page limit).2.code =
      (getMessages st chatId requesterId page limit).2.code ∧
    (getMessages st' chatId requesterId page limit).2.hasMore =
      (getMessages st chatId requesterId page limit).2.hasMore ∧
    (getMessages st' chatId requesterId page limit).2.messages =
      (getMessages st chatId requesterId page limit).2.messages.map
        (fun m => { m with isDeleted := g m, deletedFor := h m }) := by
  by_cases hreq : requesterId ∈ c.participants
  · rw [getMessages_eq st chatId requesterId page limit c hc hreq,
      getMessages_eq st' chatId requesterId page limit _ hc' hreq]
    refine ⟨rfl, ?_, ?_⟩
    · simp only [List.length_map]
    · simp only [List.length_map, jsSlice_map, List.map_reverse]
  · have hreq2 : requesterId ∉ ({ c with messages := c.messages.map (fun m =>
        { m with isDeleted := g m, deletedFor := h m }) } : Chat).participants :=
      hreq
    simp [getMessages, hc, hc', hreq, hreq2]

/-- Witness for the C10 theorem: marking the only message of the chat as
deleted for everyone and deleted for B changes nothing about what page 1
returns to B beyond those marks. -/
theorem getMessages_ignores_deletion_marks_witness :
    (getMessages stDelMarks "c0" "B" 1 50).2.code =
      (getMessages stDel "c0" "B" 1 50).2.code ∧
    (getMessages stDelMarks "c0" "B" 1 50).2.hasMore =
      (getMessages stDel "c0" "B" 1 50).2.hasMore ∧
    (getMessages stDelMarks "c0" "B" 1 50).2.messages =
      (getMessages stDel "c0" "B" 1 50).2.messages.map
        (fun m => { m with isDeleted := true, deletedFor := ["B"] }) :=
  getMessages_ignores_deletion_marks stDel stDelMarks "c0" "B" 1 50
    ⟨"c0", ["A", "B"], [msgHi], none, [⟨"A", 0⟩, ⟨"B", 1⟩]⟩
    (fun _ => true) (fun _ => ["B"]) rfl rfl

/-- C2 counterexample: for a chat storing m1 then m2, page 1 with pageSize
2 returns the texts newest first, ["m2", "m1"], not oldest-to-newest as
the claim states. -/
theorem page_returns_newest_first :
    (getMessages stPag "c0" "A" 1 2).2.messages.map Message.text
      = ["m2", "m1"] ∧ ("m2" : String) ≠ "m1" := by decide

/-- Reversing the chunk between len-(d+L) and len-d equals taking L after
dropping d from the reversed list. -/
theorem take_drop_reverse_chunk {α : Type} (l : List α) (d L : Nat) :
    ((l.drop (l.length - (d + L))).take
        ((l.length - d) - (l.length - (d + L)))).reverse
      = (l.reverse.drop d).take L := by
  have h1 : l.length - (d + L) = (l.length - d) - L := by omega
  rw [List.drop_reverse, List.take_reverse, List.length_take,
    min_eq_left (Nat.sub_le _ _), List.drop_take, h1]

/-- C2 (amended): within the valid page range ((page-1)*pageSize up to the
log length), getMessages pages reverse-chronologically — the returned page
equals taking pageSize messages of the reversed log after dropping the
previous pages, hence page 1 holds the newest messages and each page is
ordered newest-to-oldest (not oldest-to-newest); hasMore is true exactly
when older messages remain, page*pageSize < total. -/
theorem getMessages_reverse_chronological (st : Store)
    (chatId reqId : String) (page limit : Int) (c : Chat)
    (hc : findById st chatId = some c) (hreq : reqId ∈ c.participants)
    (hpage : 1 ≤ page) (hlimit : 0 ≤ limit)
    (hbound : (page - 1) * limit ≤ (c.messages.length : Int)) :
    (getMessages st chatId reqId page limit).2.code = 200 ∧
    (getMessages st chatId reqId page limit).2.messages =
      (c.messages.reverse.drop ((page - 1) * limit).toNat).take limit.toNat ∧
    ((getMessages st chatId reqId page limit).2.hasMore = true ↔
      page * limit < (c.messages.length : Int)) := by
  have hd0 : ((page - 1) * limit : Int) = (((page - 1) * limit).toNat : Int) :=
    (Int.toNat_of_nonneg (mul_nonneg (by omega) hlimit)).symm
  have hL0 : (limit : Int) = (limit.toNat : Int) :=
    (Int.toNat_of_nonneg hlimit).symm
  have hpl : (page * limit : Int) =
      (((page - 1) * limit).toNat : Int) + (limit.toNat : Int) := by
    have h : (page * limit : Int) = (page - 1) * limit + limit := by ring
    have key : ∀ x y : Int, 0 ≤ x → 0 ≤ y →
        x + y = (x.toNat : Int) + (y.toNat : Int) := by intros; omega
    rw [h]
    exact key _ _ (mul_nonneg (by omega) hlimit) hlimit
  have hDn : ((page - 1) * limit).toNat ≤ c.messages.length := by omega
  have hs : jsSliceBound c.messages.length
      (max 0 ((c.messages.length : Int) - page * limit))
      = c.messages.length - (((page - 1) * limit).toNat + limit.toNat) := by
    have hge : (0 : Int) ≤ max 0 ((c.messages.length : Int) - page * limit) :=
      le_max_left _ _
    rw [jsSliceBound, if_neg (by omega), hpl]
    rcases le_or_lt ((((page - 1) * limit).toNat : Int) + (limit.toNat : Int))
        ((c.messages.length : Int)) with hcase | hcase
    · rw [max_eq_right (by omega)]
      have ht : ((c.messages.length : Int) -
          ((((page - 1) * limit).toNat : Int) + (limit.toNat : Int))).toNat
          = c.messages.length - (((page - 1) * limit).toNat + limit.toNat) := by
        omega
      rw [ht]
      exact min_eq_left (by omega)
    · rw [max_eq_left (by omega)]
      have ht : c.messages.length -
          (((page - 1) * limit).toNat + limit.toNat) = 0 := by omega
      simp [ht]
  have he : jsSliceBound c.messages.length
      ((c.messages.length : Int) - (page - 1) * limit)
      = c.messages.length - ((page - 1) * limit).toNat := by
    rw [hd0, jsSliceBound, if_neg (by omega)]
    have ht : ((c.messages.length : Int) -
        (((page - 1) * limit).toNat : Int)).toNat
        = c.messages.length - ((page - 1) * limit).toNat := by omega
    rw [ht]
    exact min_eq_left (by omega)
  rw [getMessages_eq st chatId reqId page limit c hc hreq]
  refine ⟨rfl, ?_, ?_⟩
  · show (jsSlice c.messages
        (max 0 ((c.messages.length : Int) - page * limit))
        ((c.messages.length : Int) - (page - 1) * limit)).reverse = _
    simp only [jsSlice, hs, he]
    exact take_drop_reverse_chunk c.messages
      (((page - 1) * limit).toNat) limit.toNat
  · show decide (0 < max 0 ((c.messages.length : Int) - page * limit))
        = true ↔ page * limit < (c.messages.length : Int)
    rw [decide_eq_true_eq, hpl, lt_max_iff]
    omega

/-- Witness for the amended C2 theorem: in the two-message fixture, page 1
with pageSize 2 is the reversed log and no older page remains. -/
theorem getMessages_reverse_chronological_witness :
    (getMessages stPag "c0" "A" 1 2).2.code = 200 ∧
    (getMessages stPag "c0" "A" 1 2).2.messages =
      (chatPag.messages.reverse.drop ((1 - 1) * 2 : Int).toNat).take
        (2 : Int).toNat ∧
    ((getMessages stPag "c0" "A" 1 2).2.hasMore = true ↔
      (1 * 2 : Int) < (chatPag.messages.length : Int)) :=
  getMessages_reverse_chronological stPag "c0" "A" 1 2 chatPag
    rfl (by decide) (by decide) (by decide) (by decide)

/-- Changing nextMid does not affect lookups. -/
theorem findById_setMid (st : Store) (k : Nat) (key : String) :
    findById { st with nextMid := k } key = findById st key := rfl

/-- A forward step leaves every chat under a different key untouched. -/
theorem forwardStep_other (fw srcCid : String) (m : Message) (now : Nat)
    (st : Store) (tid key : String) (hne : key ≠ tid) :
    findById (forwardStep fw srcCid m now st tid) key = findById st key := by
  unfold forwardStep
  cases hfind : findById st tid with
  | none => rfl
  | some tc =>
    by_cases hpart : fw ∈ tc.participants
    · have htc : tc.cid = tid := by
        simpa [findById, beq_iff_eq] using List.find?_some hfind
      simp only [hpart, if_true]
      rw [findById_setMid, findById_updateChat]
      cases hkey : findById st key with
      | none => rfl
      | some x =>
        have hx : x.cid = key := by
          simpa [findById, beq_iff_eq] using List.find?_some hkey
        have hxx : x.cid ≠ tc.cid := by rw [hx, htc]; exact hne
        simp [hxx]
    · simp [hpart]

/-- A forward step into a found chat with the forwarder as participant
appends exactly one copy of the source message. -/
theorem forwardStep_hit (fw srcCid : String) (m : Message) (now : Nat)
    (st : Store) (tid : String) (tc : Chat)
    (hfind : findById st tid = some tc) (hpart : fw ∈ tc.participants) :
    forwardStep fw srcCid m now st tid =
      { updateChat st { tc with
          messages := tc.messages ++
            [⟨st.nextMid, fw, m.text, m.messageType, m.media, .sent,
              false, false, [], some srcCid, none⟩],
          lastMessage := some ⟨"Forwarded: " ++ m.text, fw, now⟩ }
        with nextMid := st.nextMid + 1 } := by
  simp [forwardStep, hfind, hpart]

/-- A forward step on a missing or non-member target is the identity. -/
theorem forwardStep_skip (fw srcCid : String) (m : Message) (now : Nat)
    (st : Store) (tid : String)
    (h : ∀ tc, findById st tid = some tc → fw ∉ tc.participants) :
    forwardStep fw srcCid m now st tid = st := by
  unfold forwardStep
  cases hfind : findById st tid with
  | none => rfl
  | some tc => simp [h tc hfind]

/-- The forward fold leaves keys outside the target list untouched. -/
theorem forwardFold_other (fw srcCid : String) (m : Message) (now : Nat) :
    ∀ (targets : List String) (st : Store) (key : String), key ∉ targets →
      findById (targets.foldl (forwardStep fw srcCid m now) st) key
        = findById st key := by
  intro targets
  induction targets with
  | nil => intro st key _; rfl
  | cons t ts ih =>
    intro st key h
    rw [List.foldl_cons,
      ih _ key (fun hx => h (List.mem_cons_of_mem _ hx)),
      forwardStep_other fw srcCid m now st t key
        (fun he => h (he ▸ List.mem_cons_self t ts))]

/-- Per-target behavior of the forward fold on a nodup target list:
a found target with the forwarder as member gains exactly the one copy;
a found target without the forwarder, and a missing target, are left
exactly as they were. -/
theorem forwardFold_hit (fw srcCid : String) (m : Message) (now : Nat) :
    ∀ (targets : List String), targets.Nodup →
      ∀ (st : Store) (tid : String), tid ∈ targets →
      (∀ tc, findById st tid = some tc → fw ∈ tc.participants →
        ∃ nm, findById (targets.foldl (forwardStep fw srcCid m now) st) tid
          = some { tc with
              messages := tc.messages ++
                [⟨nm, fw, m.text, m.messageType, m.media, .sent,
                  false, false, [], some srcCid, none⟩],
              lastMessage := some ⟨"Forwarded: " ++ m.text, fw, now⟩ }) ∧
      (∀ tc, findById st tid = some tc → fw ∉ tc.participants →
        findById (targets.foldl (forwardStep fw srcCid m now) st) tid
          = some tc) ∧
      (findById st tid = none →
        findById (targets.foldl (forwardStep fw srcCid m now) st) tid
          = none) := by
  intro targets
  induction targets with
  | nil => intro _ st tid h; cases h
  | cons t ts ih =>
    intro hnd st tid hmem
    rw [List.nodup_cons] at hnd
    rcases List.mem_cons.1 hmem with rfl | hmem'
    · -- tid is the head target; the tail never touches it again
      have htail : ∀ st', findById (ts.foldl (forwardStep fw srcCid m now) st')
          tid = findById st' tid :=
        fun st' => forwardFold_other fw srcCid m now ts st' tid hnd.1
      refine ⟨?_, ?_, ?_⟩
      · intro tc hfind hpart
        refine ⟨st.nextMid, ?_⟩
        rw [List.foldl_cons, htail,
          forwardStep_hit fw srcCid m now st tid tc hfind hpart,
          findById_setMid]
        exact findById_updateChat_self st tid tc _ hfind rfl
      · intro tc hfind hpart
        rw [List.foldl_cons, htail,
          forwardStep_skip fw srcCid m now st tid
            (fun tc' h' => by rw [hfind] at h'; cases h'; exact hpart)]
        exact hfind
      · intro hfind
        rw [List.foldl_cons, htail,
          forwardStep_skip fw srcCid m now st tid
            (fun tc' h' => by rw [hfind] at h'; cases h')]
        exact hfind
    · -- tid is in the tail; the head step cannot touch it
      have hne : tid ≠ t := fun he => hnd.1 (he ▸ hmem')
      have hhead : findById (forwardStep fw srcCid m now st t) tid
          = findById st tid := forwardStep_other fw srcCid m now st t tid hne
      have := ih hnd.2 (forwardStep fw srcCid m now st t) tid hmem'
      rw [hhead] at this
      rw [List.foldl_cons]
      exact this

/-- C6: forwardMessage appends exactly one copy — carrying the source
text, messageType, media and forwardedFrom = source chat id — to every
target chat in which the forwarder is a participant, silently skips
targets where the forwarder is not a participant or that do not exist,
leaves every other chat untouched, answers 200 with no error, and does
not mutate the source message. -/
theorem forwardMessage_per_target (st : Store) (srcCid : String)
    (messageId : Nat) (fw : String) (targets : List String) (now : Nat)
    (sc : Chat) (m : Message)
    (hsrc : findById st srcCid = some sc)
    (hm : sc.messages.find? (fun x => x.mid == messageId) = some m)
    (hnodup : targets.Nodup) :
    (forwardMessage st srcCid messageId fw targets now).2 = ⟨200⟩ ∧
    (∀ tid ∈ targets, ∀ tc, findById st tid = some tc →
      fw ∈ tc.participants →
      ∃ nm, findById (forwardMessage st srcCid messageId fw targets now).1 tid
        = some { tc with
            messages := tc.messages ++
              [⟨nm, fw, m.text, m.messageType, m.media, .sent,
                false, false, [], some srcCid, none⟩],
            lastMessage := some ⟨"Forwarded: " ++ m.text, fw, now⟩ }) ∧
    (∀ tid ∈ targets, ∀ tc, findById st tid = some tc →
      fw ∉ tc.participants →
      findById (forwardMessage st srcCid messageId fw targets now).1 tid
        = some tc) ∧
    (∀ tid ∈ targets, findById st tid = none →
      findById (forwardMessage st srcCid messageId fw targets now).1 tid
        = none) ∧
    (∀ key, key ∉ targets →
      findById (forwardMessage st srcCid messageId fw targets now).1 key
        = findById st key) ∧
    (∃ sc', findById (forwardMessage st srcCid messageId fw targets now).1
        srcCid = some sc' ∧
      sc'.participants = sc.participants ∧
      sc'.messages.find? (fun x => x.mid == messageId) = some m) := by
  have hscid : sc.cid = srcCid := by
    simpa [findById, beq_iff_eq] using List.find?_some hsrc
  have hred : forwardMessage st srcCid messageId fw targets now
      = (targets.foldl (forwardStep fw sc.cid m now) st, ⟨200⟩) := by
    simp [forwardMessage, hsrc, hm]
  rw [hred, hscid]
  refine ⟨rfl, ?_, ?_, ?_, ?_, ?_⟩
  · intro tid htid tc hfind hpart
    exact (forwardFold_hit fw srcCid m now targets hnodup st tid htid).1
      tc hfind hpart
  · intro tid htid tc hfind hpart
    exact (forwardFold_hit fw srcCid m now targets hnodup st tid htid).2.1
      tc hfind hpart
  · intro tid htid hfind
    exact (forwardFold_hit fw srcCid m now targets hnodup st tid htid).2.2
      hfind
  · intro key hkey
    exact forwardFold_other fw srcCid m now targets st key hkey
  · by_cases hin : srcCid ∈ targets
    · rcases forwardFold_hit fw srcCid m now targets hnodup st srcCid hin
        with ⟨hyes, hno, _⟩
      by_cases hpart : fw ∈ sc.participants
      · rcases hyes sc hsrc hpart with ⟨nm, hfound⟩
        refine ⟨_, hfound, rfl, ?_⟩
        rw [List.find?_append, hm]
        rfl
      · exact ⟨sc, hno sc hsrc hpart, rfl, hm⟩
    · exact ⟨sc, (forwardFold_other fw srcCid m now targets st srcCid hin).trans
        hsrc, rfl, hm⟩

/-- Witness for the C6 theorem: three targets, forwarder A a member of c0
and c1 but not of c2; the response is 200. -/
theorem forwardMessage_per_target_witness :
    (forwardMessage stFwd "c0" 0 "A" ["c0", "c1", "c2"] 7).2 = ⟨200⟩ :=
  (forwardMessage_per_target stFwd "c0" 0 "A" ["c0", "c1", "c2"] 7
    ⟨"c0", ["A", "B"], [msgHi], none, [⟨"A", 0⟩, ⟨"B", 1⟩]⟩ msgHi
    (by rfl) (by rfl) (by decide)).1

/-- Evaluation of sendMessage on the canonical two-participant store. -/
theorem sendMessage_good (A B s t : String) (tnow : Nat) (hs : s = A ∨ s = B)
    (ht : t ≠ "") (cid : String) (msgs : List Message)
    (lm : Option LastMessage) (nm nc a b : Nat) :
    sendMessage ⟨[⟨cid, [A, B], msgs, lm, [⟨A, a⟩, ⟨B, b⟩]⟩], nm, nc⟩
        cid s (some t) none none tnow
      = (⟨[⟨cid, [A, B],
            msgs ++ [⟨nm, s, t, "text", none, .sent, false, false, [], none, none⟩],
            some ⟨t, s, tnow⟩,
            [⟨A, if A ≠ s then a + 1 else a⟩,
             ⟨B, if B ≠ s then b + 1 else b⟩]⟩], nm + 1, nc⟩,
         ⟨200, some ⟨nm, s, t, "text", none, .sent, false, false, [], none, none⟩⟩) := by
  rcases hs with rfl | rfl
  · by_cases h2 : B = s <;>
      simp [sendMessage, findById, updateChat, strFalsy, ht, h2]
  · by_cases h2 : A = s <;>
      simp [sendMessage, findById, updateChat, strFalsy, ht, h2]

/-- Store effect of getMessages on the canonical two-participant store:
the requester entry is reset to 0, everything else stays. -/
theorem getMessages_good (A B r : String) (page limit : Int)
    (hr : r = A ∨ r = B) (cid : String) (msgs : List Message)
    (lm : Option LastMessage) (nm nc a b : Nat) :
    (getMessages ⟨[⟨cid, [A, B], msgs, lm, [⟨A, a⟩, ⟨B, b⟩]⟩], nm, nc⟩
        cid r page limit).1
      = ⟨[⟨cid, [A, B], msgs, lm,
          [⟨A, if A = r then 0 else a⟩, ⟨B, if B = r then 0 else b⟩]⟩],
         nm, nc⟩ := by
  rcases hr with rfl | rfl
  · by_cases h2 : B = r <;>
      simp [getMessages, findById, updateChat, h2]
  · by_cases h2 : A = r <;>
      simp [getMessages, findById, updateChat, h2]

/-- counterRun unfolds one call at a time. -/
theorem counterRun_cons (P : String) (k : Nat) (x : ChatCall)
    (rest : List ChatCall) :
    counterRun P k (x :: rest) = counterRun P (counterStep P k x) rest := rfl

/-- Running a valid call sequence on the canonical store keeps its shape
and drives both unread counters by counterRun. -/
theorem runCalls_good (A B cid : String) :
    ∀ (calls : List ChatCall), (∀ x ∈ calls, callValid A B x) →
      ∀ (msgs : List Message) (lm : Option LastMessage) (nm nc a b : Nat),
      ∃ msgs' lm' nm',
        runCalls cid ⟨[⟨cid, [A, B], msgs, lm, [⟨A, a⟩, ⟨B, b⟩]⟩], nm, nc⟩ calls
          = ⟨[⟨cid, [A, B], msgs', lm',
              [⟨A, counterRun A a calls⟩, ⟨B, counterRun B b calls⟩]⟩],
             nm', nc⟩ := by
  intro calls
  induction calls with
  | nil => intro _ msgs lm nm nc a b; exact ⟨msgs, lm, nm, rfl⟩
  | cons x rest ih =>
    intro hv msgs lm nm nc a b
    have hx := hv x (List.mem_cons_self x rest)
    have hrest : ∀ y ∈ rest, callValid A B y :=
      fun y hy => hv y (List.mem_cons_of_mem x hy)
    cases x with
    | send s t tnow =>
      obtain ⟨hs, ht⟩ := hx
      have happ : applyCall cid
          ⟨[⟨cid, [A, B], msgs, lm, [⟨A, a⟩, ⟨B, b⟩]⟩], nm, nc⟩
          (ChatCall.send s t tnow)
          = ⟨[⟨cid, [A, B],
              msgs ++ [⟨nm, s, t, "text", none, .sent, false, false, [], none, none⟩],
              some ⟨t, s, tnow⟩,
              [⟨A, if A ≠ s then a + 1 else a⟩,
               ⟨B, if B ≠ s then b + 1 else b⟩]⟩], nm + 1, nc⟩ := by
        show (sendMessage _ cid s (some t) none none tnow).1 = _
        rw [sendMessage_good A B s t tnow hs ht cid msgs lm nm nc a b]
      rw [show runCalls cid ⟨[⟨cid, [A, B], msgs, lm, [⟨A, a⟩, ⟨B, b⟩]⟩], nm, nc⟩
          (ChatCall.send s t tnow :: rest)
          = runCalls cid (applyCall cid
              ⟨[⟨cid, [A, B], msgs, lm, [⟨A, a⟩, ⟨B, b⟩]⟩], nm, nc⟩
              (ChatCall.send s t tnow)) rest from rfl,
        happ, counterRun_cons, counterRun_cons]
      exact ih hrest _ _ _ _ _ _
    | fetch r page limit =>
      have happ : applyCall cid
          ⟨[⟨cid, [A, B], msgs, lm, [⟨A, a⟩, ⟨B, b⟩]⟩], nm, nc⟩
          (ChatCall.fetch r page limit)
          = ⟨[⟨cid, [A, B], msgs, lm,
              [⟨A, if A = r then 0 else a⟩, ⟨B, if B = r then 0 else b⟩]⟩],
             nm, nc⟩ := by
        show (getMessages _ cid r page limit).1 = _
        rw [getMessages_good A B r page limit hx cid msgs lm nm nc a b]
      rw [show runCalls cid ⟨[⟨cid, [A, B], msgs, lm, [⟨A, a⟩, ⟨B, b⟩]⟩], nm, nc⟩
          (ChatCall.fetch r page limit :: rest)
          = runCalls cid (applyCall cid
              ⟨[⟨cid, [A, B], msgs, lm, [⟨A, a⟩, ⟨B, b⟩]⟩], nm, nc⟩
              (ChatCall.fetch r page limit)) rest from rfl,
        happ, counterRun_cons, counterRun_cons]
      exact ih hrest _ _ _ _ _ _

/-- The count of sends by the other participant in the accumulated list is
driven by counterStep. -/
theorem countP_foldl_acc (P : String) :
    ∀ (calls : List ChatCall) (acc : List ChatCall),
      (calls.foldl (fun acc c => match c with
        | .send _ _ _ => acc ++ [c]
        | .fetch r _ _ => if r = P then [] else acc) acc).countP (sendByOther P)
        = counterRun P (acc.countP (sendByOther P)) calls := by
  intro calls
  induction calls with
  | nil => intro _; rfl
  | cons x rest ih =>
    intro acc
    cases x with
    | send s t tnow =>
      rw [List.foldl_cons, ih, counterRun_cons]
      have hkey : (acc ++ [ChatCall.send s t tnow]).countP (sendByOther P)
          = counterStep P (acc.countP (sendByOther P))
              (ChatCall.send s t tnow) := by
        rw [List.countP_append]
        by_cases h : s = P
        · simp [sendByOther, counterStep, h]
        · have h' : P ≠ s := fun hh => h hh.symm
          simp [sendByOther, counterStep, h, h']
      rw [hkey]
    | fetch r page limit =>
      rw [List.foldl_cons, counterRun_cons]
      by_cases h : r = P
      · subst h
        simp only [if_pos rfl, counterStep]
        rw [ih]
        simp [counterStep]
      · have h' : P ≠ r := fun hh => h hh.symm
        simp only [if_neg h]
        rw [ih]
        simp [counterStep, h']

/-- counterRun from 0 computes exactly the unread count the claim
predicts. -/
theorem counterRun_zero_eq (P : String) (calls : List ChatCall) :
    counterRun P 0 calls = unreadSpec P calls := by
  have h := countP_foldl_acc P calls []
  unfold unreadSpec appendsSinceLastFetch
  exact h.symm

/-- updateChat with unchanged cid and unreadCount preserves the unread
projection of the collection, given unique cids. -/
theorem updateChat_proj (st : Store) (tc tc' : Chat)
    (hnodup : (st.chats.map Chat.cid).Nodup) (hmem : tc ∈ st.chats)
    (hcid : tc'.cid = tc.cid) (hur : tc'.unreadCount = tc.unreadCount) :
    (updateChat st tc').chats.map (fun x => (x.cid, x.unreadCount))
      = st.chats.map (fun x => (x.cid, x.unreadCount)) := by
  show (st.chats.map _).map _ = _
  rw [List.map_map]
  apply List.map_congr_left
  intro x hx
  by_cases h : x.cid == tc'.cid
  · have hxc : x.cid = tc'.cid := by simpa [beq_iff_eq] using h
    have hxtc : x = tc :=
      nodup_proj_inj Chat.cid hnodup hx hmem (by rw [hxc, hcid])
    simp [h, hcid, hur, hxtc]
  · have hne : x.cid ≠ tc'.cid := by simpa [beq_iff_eq] using h
    simp [hne]

/-- updateChat never changes the list of cids. -/
theorem updateChat_cids (st : Store) (c' : Chat) :
    (updateChat st c').chats.map Chat.cid = st.chats.map Chat.cid := by
  show (st.chats.map _).map _ = _
  rw [List.map_map]
  apply List.map_congr_left
  intro x hx
  by_cases h : x.cid == c'.cid
  · have hxc : x.cid = c'.cid := by simpa [beq_iff_eq] using h
    simp [h, hxc]
  · have hne : x.cid ≠ c'.cid := by simpa [beq_iff_eq] using h
    simp [hne]

/-- A forward step never changes the list of cids. -/
theorem forwardStep_cids (fw srcCid : String) (m : Message) (now : Nat)
    (st : Store) (tid : String) :
    (forwardStep fw srcCid m now st tid).chats.map Chat.cid
      = st.chats.map Chat.cid := by
  unfold forwardStep
  cases hfind : findById st tid with
  | none => rfl
  | some tc =>
    by_cases hpart : fw ∈ tc.participants
    · simp only [hpart, if_true]
      exact updateChat_cids st _
    · simp [hpart]

/-- A forward step preserves every unread counter, given unique cids. -/
theorem forwardStep_proj (fw srcCid : String) (m : Message) (now : Nat)
    (st : Store) (tid : String)
    (hnodup : (st.chats.map Chat.cid).Nodup) :
    (forwardStep fw srcCid m now st tid).chats.map
        (fun x => (x.cid, x.unreadCount))
      = st.chats.map (fun x => (x.cid, x.unreadCount)) := by
  unfold forwardStep
  cases hfind : findById st tid with
  | none => rfl
  | some tc =>
    by_cases hpart : fw ∈ tc.participants
    · simp only [hpart, if_true]
      exact updateChat_proj st tc _ hnodup
        (List.mem_of_find?_eq_some (by simpa [findById] using hfind)) rfl rfl
    · simp [hpart]

/-- The forward fold preserves every unread counter, given unique cids. -/
theorem forwardFold_proj (fw srcCid : String) (m : Message) (now : Nat) :
    ∀ (targets : List String) (st : Store),
      (st.chats.map Chat.cid).Nodup →
      ((targets.foldl (forwardStep fw srcCid m now) st).chats.map
          (fun x => (x.cid, x.unreadCount)))
        = st.chats.map (fun x => (x.cid, x.unreadCount)) := by
  intro targets
  induction targets with
  | nil => intro st _; rfl
  | cons t ts ih =>
    intro st hnd
    rw [List.foldl_cons]
    have hnd' : ((forwardStep fw srcCid m now st t).chats.map Chat.cid).Nodup := by
      rw [forwardStep_cids]
      exact hnd
    rw [ih _ hnd', forwardStep_proj fw srcCid m now st t hnd]

/-- C1 (amended): starting from a fresh thread, for every sequence of
valid message sends and fetches, each participant P ends with unreadCount
equal to the number of messages appended by the other participant since
P last fetched the thread — and forwardMessage appends messages without
incrementing any unreadCount anywhere in the store. -/
theorem unread_count_accounting (A B P : String) (hAB : A ≠ B) (hB : B ≠ "")
    (hP : P = A ∨ P = B) (calls : List ChatCall)
    (hv : ∀ x ∈ calls, callValid A B x) :
    chatUnread (runCalls "c0" (startChat emptyStore A B).1 calls) "c0" P
      = unreadSpec P calls ∧
    (∀ (st : Store) (chatId : String) (messageId : Nat) (fw : String)
      (targets : List String) (now : Nat),
      (st.chats.map Chat.cid).Nodup →
      (forwardMessage st chatId messageId fw targets now).1.chats.map
        (fun x => (x.cid, x.unreadCount))
        = st.chats.map (fun x => (x.cid, x.unreadCount))) := by
  constructor
  · have hinit : (startChat emptyStore A B).1
        = ⟨[⟨"c0", [A, B], [], none, [⟨A, 0⟩, ⟨B, 0⟩]⟩], 0, 1⟩ := by
      rw [startChat_new emptyStore A B hB (fun h => hAB h.symm) rfl]
      rfl
    rw [hinit]
    obtain ⟨msgs', lm', nm', hrun⟩ :=
      runCalls_good A B "c0" calls hv [] none 0 1 0 0
    rw [hrun]
    have hstep : chatUnread ⟨[⟨"c0", [A, B], msgs', lm',
        [⟨A, counterRun A 0 calls⟩, ⟨B, counterRun B 0 calls⟩]⟩], nm', 1⟩
          "c0" P = counterRun P 0 calls := by
      rcases hP with rfl | rfl
      · simp [chatUnread, findById, unreadOf]
      · have hf : (A == P) = false := by
          rw [beq_eq_false_iff_ne]
          exact hAB
        simp [chatUnread, findById, unreadOf, hf]
    rw [hstep, counterRun_zero_eq]
  · intro st chatId messageId fw targets now hnodup
    cases hsrc : findById st chatId with
    | none => simp [forwardMessage, hsrc]
    | some sc =>
      cases hm : sc.messages.find? (fun x => x.mid == messageId) with
      | none => simp [forwardMessage, hsrc, hm]
      | some m =>
        simp only [forwardMessage, hsrc, hm]
        exact forwardFold_proj fw sc.cid m now targets st hnodup

/-- Witness for the amended C1 theorem: A sends one message, so B has one
unread message, matching the predicted count. -/
theorem unread_count_accounting_witness :
    chatUnread (runCalls "c0" (startChat emptyStore "A" "B").1
        [ChatCall.send "A" "hi" 1]) "c0" "B"
      = unreadSpec "B" [ChatCall.send "A" "hi" 1] ∧
    (∀ (st : Store) (chatId : String) (messageId : Nat) (fw : String)
      (targets : List String) (now : Nat),
      (st.chats.map Chat.cid).Nodup →
      (forwardMessage st chatId messageId fw targets now).1.chats.map
        (fun x => (x.cid, x.unreadCount))
        = st.chats.map (fun x => (x.cid, x.unreadCount))) :=
  unread_count_accounting "A" "B" "B" (by decide) (by decide) (Or.inr rfl)
    [ChatCall.send "A" "hi" 1]
    (by
      intro x hx
      rcases List.mem_singleton.1 hx with rfl
      exact ⟨Or.inl rfl, by decide⟩)

/-- C1 counterexample: forwarding the message of chat c0 into chat c1 by A
appends a message to c1, yet the unread counter of the other participant C
stays 0 — forward appends are not counted, refuting the parenthetical of
the claim that forwardMessage increments recipients by 1. -/
theorem forward_does_not_increment_unread :
    ((findById (forwardMessage stFwd "c0" 0 "A" ["c1"] 7).1 "c1").map
      (fun c => c.messages.length) = some 1) ∧
    chatUnread (forwardMessage stFwd "c0" 0 "A" ["c1"] 7).1 "c1" "C" = 0 := by
  decide

end Lykechat
